import Mathlib

/-!
Verification development for the aws-costs-tui repository.

The Rust source is shallowly embedded in Lean 4. Conventions used throughout:

* `f64` cost values are modelled as exact rationals (`ℚ`): the programme only
  adds, divides and compares finite non-NaN magnitudes, and the `partial_cmp`
  comparator used for sorting falls back to `Ordering::Equal` only for NaN,
  which cannot arise from parsed cost amounts in this model.
* `usize` is modelled as `Nat`; Rust's `saturating_sub` is Nat subtraction.
* `Vec::sort_by` is a stable sort; it is modelled by `List.insertionSort`,
  which is likewise stable, with the same comparator.
* The `HashMap` in `get_top_services_across_months` yields its entries in an
  unspecified order, so the embedding takes that enumeration order as an
  explicit parameter (`enum`), constrained to be some permutation of the set
  of service names occurring in the trend (`validEnum`).
* Fallible calls (`?`, early `return` of `Err`) are modelled with `Except` /
  `Option`; a Rust panic is modelled as `Option.none`.
-/

namespace AwsCostsTui

/-- Embeds `ServiceCost` (src/aws/cost_explorer.rs): one per-service cost row. -/
structure ServiceCost where
  service : String
  cost : ℚ
  percentage : ℚ
deriving DecidableEq, Repr

/-- Embeds `CostData` (src/aws/cost_explorer.rs): one period's processed costs. -/
structure CostData where
  period : String
  total_cost : ℚ
  currency : String
  breakdown : List ServiceCost
deriving DecidableEq, Repr

/-- Embeds the `App` state struct (src/ui/app.rs). -/
structure App where
  current_month : Option CostData
  previous_month : Option CostData
  monthly_trend : List CostData
  selected_tab : Nat
  selected_row : Nat
  error : Option String
  loading : Bool
  should_quit : Bool
deriving DecidableEq, Repr

/-- Embeds `App::new` (src/ui/app.rs lines 61-72). -/
def App.new : App where
  current_month := none
  previous_month := none
  monthly_trend := []
  selected_tab := 0
  selected_row := 0
  error := none
  loading := true
  should_quit := false

/-- Sum, over every month of the trend and every breakdown entry naming `s`,
of that entry's cost.  This is exactly the value accumulated for key `s` by
the `HashMap` loop of `get_top_services_across_months` (src/ui/app.rs lines
164-170); a month without an entry for `s` contributes `0`. -/
def serviceSum (trend : List CostData) (s : String) : ℚ :=
  (trend.map (fun m => ((m.breakdown.filter (fun e => e.service = s)).map (fun e => e.cost)).sum)).sum

/-- The descending-by-summed-cost comparator of src/ui/app.rs line 173
(`b.1.partial_cmp(&a.1)`), as a relation: entry `a` may precede `b`. -/
def sumDesc (a b : String × ℚ) : Prop := b.2 ≤ a.2

instance : DecidableRel sumDesc := fun a b => inferInstanceAs (Decidable (b.2 ≤ a.2))

instance : IsTotal (String × ℚ) sumDesc := ⟨fun a b => le_total b.2 a.2⟩

instance : IsTrans (String × ℚ) sumDesc := ⟨fun _ _ _ h1 h2 => le_trans h2 h1⟩

/-- Embeds `App::get_top_services_across_months` (src/ui/app.rs lines 163-175).
`enum` is the order in which the `HashMap` happens to enumerate its keys; the
map's content is fixed by the trend, so each key is paired with `serviceSum`.
The entries are then stably sorted descending by summed cost (`sort_by` with
`partial_cmp`), the first 8 are taken, and only the names are kept. -/
def App.get_top_services_across_months (app : App) (enum : List String) : List String :=
  let entries := enum.map (fun n => (n, serviceSum app.monthly_trend n))
  let sorted := List.insertionSort sumDesc entries
  (sorted.take 8).map Prod.fst

/-- The multiset of keys the `HashMap` of `get_top_services_across_months`
holds once the accumulation loop has run: each service name occurring in any
month's breakdown, once. -/
def collectServices (trend : List CostData) : List String :=
  ((trend.map (fun m => m.breakdown.map (fun e => e.service))).flatten).dedup

/-- Decidable form of "service `s` occurs in some month of the trend". -/
def appearsIn (trend : List CostData) (s : String) : Bool :=
  trend.any (fun m => m.breakdown.any (fun e => e.service == s))

/-- A key-enumeration order the `HashMap` could produce: some permutation of
the distinct service names of the trend. -/
def validEnum (trend : List CostData) (enum : List String) : Prop :=
  enum.Perm (collectServices trend)

instance (trend : List CostData) (enum : List String) : Decidable (validEnum trend enum) :=
  inferInstanceAs (Decidable (enum.Perm (collectServices trend)))

/-- Embeds `App::get_current_breakdown_len` (src/ui/app.rs lines 153-160). -/
def App.get_current_breakdown_len (app : App) (enum : List String) : Nat :=
  match app.selected_tab with
  | 0 => (app.current_month.map (fun d => d.breakdown.length)).getD 0
  | 1 => (app.previous_month.map (fun d => d.breakdown.length)).getD 0
  | 2 => (app.get_top_services_across_months enum).length
  | _ + 3 => 0

/-- The keyboard events `App::handle_input` distinguishes (src/ui/app.rs lines
114-145): `q`/`Esc`, `Tab`/`Right`, `BackTab`/`Left`, `Down`/`j`, `Up`/`k`,
`Home`/`g`, `End`/`G`, and any other key. -/
inductive Key where
  | quit
  | nextTab
  | prevTab
  | rowDown
  | rowUp
  | jumpTop
  | jumpBottom
  | other
deriving DecidableEq, Repr

/-- Embeds the key dispatch of `App::handle_input` (src/ui/app.rs lines
110-151).  The `event::poll` / `event::read` plumbing is I/O; this is the
state transition applied when a key press arrives.  `enum` is the hash
enumeration order used if the trend tab's row count must be computed. -/
def App.handle_input (app : App) (k : Key) (enum : List String) : App :=
  match k with
  | .quit => { app with should_quit := true }
  | .nextTab => { app with selected_tab := (app.selected_tab + 1) % 3, selected_row := 0 }
  | .prevTab =>
      { app with
        selected_tab := if app.selected_tab = 0 then 2 else app.selected_tab - 1,
        selected_row := 0 }
  | .rowDown =>
      let max_rows := app.get_current_breakdown_len enum
      if app.selected_row < max_rows - 1 then
        { app with selected_row := app.selected_row + 1 }
      else app
  | .rowUp =>
      if app.selected_row > 0 then { app with selected_row := app.selected_row - 1 } else app
  | .jumpTop => { app with selected_row := 0 }
  | .jumpBottom => { app with selected_row := app.get_current_breakdown_len enum - 1 }
  | .other => app

/-- C6: the next-tab event sets `selected_tab` to `(selected_tab + 1) % 3` and
the prev-tab event to `(selected_tab + 2) % 3` (so `2 → 0` and `0 → 2`), and
both reset `selected_row` to `0` whatever it was. -/
theorem c6_tab_navigation (app : App) (enum : List String) (h : app.selected_tab < 3) :
    (app.handle_input Key.nextTab enum).selected_tab = (app.selected_tab + 1) % 3 ∧
    (app.handle_input Key.nextTab enum).selected_row = 0 ∧
    (app.handle_input Key.prevTab enum).selected_tab = (app.selected_tab + 2) % 3 ∧
    (app.handle_input Key.prevTab enum).selected_row = 0 := by
  refine ⟨rfl, rfl, ?_, rfl⟩
  show (if app.selected_tab = 0 then 2 else app.selected_tab - 1) = (app.selected_tab + 2) % 3
  interval_cases h : app.selected_tab <;> rfl

/-- Witness for `c6_tab_navigation` at a state sitting on tab 2 with a
nonzero selected row. -/
theorem c6_tab_navigation_witness :
    ({ App.new with selected_tab := 2, selected_row := 5 }.handle_input Key.nextTab []).selected_tab
        = (2 + 1) % 3 ∧
    ({ App.new with selected_tab := 2, selected_row := 5 }.handle_input Key.nextTab []).selected_row
        = 0 ∧
    ({ App.new with selected_tab := 2, selected_row := 5 }.handle_input Key.prevTab []).selected_tab
        = (2 + 2) % 3 ∧
    ({ App.new with selected_tab := 2, selected_row := 5 }.handle_input Key.prevTab []).selected_row
        = 0 :=
  c6_tab_navigation { App.new with selected_tab := 2, selected_row := 5 } [] (by decide)

/-- C7: with `visible_rows` the active tab's row count, row-down at the last
valid row is a no-op, row-up at row 0 is a no-op, and jump-bottom sets
`selected_row` to `max (visible_rows - 1) 0` (so `0` on an empty row set). -/
theorem c7_row_clamp (app : App) (enum : List String) :
    (app.selected_row = app.get_current_breakdown_len enum - 1 →
      app.handle_input Key.rowDown enum = app) ∧
    (app.selected_row = 0 → app.handle_input Key.rowUp enum = app) ∧
    (app.handle_input Key.jumpBottom enum).selected_row
        = max (app.get_current_breakdown_len enum - 1) 0 := by
  refine ⟨fun hdown => ?_, fun hup => ?_, ?_⟩
  · show (if app.selected_row < app.get_current_breakdown_len enum - 1 then
        { app with selected_row := app.selected_row + 1 } else app) = app
    rw [if_neg]
    omega
  · show (if app.selected_row > 0 then { app with selected_row := app.selected_row - 1 }
        else app) = app
    rw [if_neg]
    omega
  · simp [App.handle_input]

/-- A state on the current-month tab with a two-service breakdown, sitting on
the last row; used to exercise `c7_row_clamp`. -/
def appTwoRowsLast : App :=
  { App.new with
    loading := false
    current_month := some
      { period := "October 2025", total_cost := 3, currency := "USD",
        breakdown :=
          [ { service := "Amazon EC2", cost := 2, percentage := 200 / 3 },
            { service := "Amazon S3", cost := 1, percentage := 100 / 3 } ] }
    selected_row := 1 }

/-- Witness for `c7_row_clamp`: on a two-row breakdown with the last row
selected, row-down is a no-op; on the fresh empty state, row-up is a no-op
and jump-bottom leaves row 0. -/
theorem c7_row_clamp_witness :
    appTwoRowsLast.handle_input Key.rowDown [] = appTwoRowsLast ∧
    App.new.handle_input Key.rowUp [] = App.new ∧
    (App.new.handle_input Key.jumpBottom []).selected_row
        = max (App.new.get_current_breakdown_len [] - 1) 0 :=
  ⟨(c7_row_clamp appTwoRowsLast []).1 (by decide),
   (c7_row_clamp App.new []).2.1 (by decide),
   (c7_row_clamp App.new []).2.2⟩

/-- Embeds `App::load_data` (src/ui/app.rs lines 75-107).  The three client
calls `get_current_month_costs`, `get_previous_month_costs` and
`get_monthly_trend(6)` are I/O; their outcomes are passed in as `Except`
values.  On a current-month failure the function records the error, clears
`loading` and returns early; previous-month and trend failures are only
logged (`tracing::warn!`), leaving the corresponding field untouched. -/
def App.load_data (app : App) (curRes : Except String CostData)
    (prevRes : Except String CostData) (trendRes : Except String (List CostData)) : App :=
  let app0 := { app with loading := true, error := none }
  match curRes with
  | .error e =>
      { app0 with error := some ("Failed to load current month: " ++ e), loading := false }
  | .ok cur =>
      let app1 := { app0 with current_month := some cur }
      let app2 :=
        match prevRes with
        | .ok prev => { app1 with previous_month := some prev }
        | .error _ => app1
      let app3 :=
        match trendRes with
        | .ok t => { app2 with monthly_trend := t }
        | .error _ => app2
      { app3 with loading := false }

/-- C5: starting from the fresh state, if the current-month fetch fails then
`error` is set to the failure message and previous and trend are not
attempted (the result does not even depend on their outcomes, and they stay
absent/empty); if it succeeds, previous and trend are taken independently
from their own outcomes, a failure of either leaving the others unaffected
and setting no error; and `loading` is `false` once the sequence completes. -/
theorem c5_load_sequence (curRes prevRes : Except String CostData)
    (trendRes : Except String (List CostData)) :
    (App.new.load_data curRes prevRes trendRes).loading = false ∧
    (∀ e, curRes = Except.error e →
      App.new.load_data curRes prevRes trendRes
        = { App.new with
            error := some ("Failed to load current month: " ++ e),
            loading := false }) ∧
    (∀ cur, curRes = Except.ok cur →
      (App.new.load_data curRes prevRes trendRes).current_month = some cur ∧
      (App.new.load_data curRes prevRes trendRes).error = none ∧
      (App.new.load_data curRes prevRes trendRes).previous_month
        = (match prevRes with | Except.ok p => some p | Except.error _ => none) ∧
      (App.new.load_data curRes prevRes trendRes).monthly_trend
        = (match trendRes with | Except.ok t => t | Except.error _ => [])) := by
  cases curRes <;> cases prevRes <;> cases trendRes <;>
    simp [App.load_data, App.new]

/-- A small concrete summary used by witnesses. -/
def sampleData : CostData :=
  { period := "October 2025", total_cost := 3, currency := "USD",
    breakdown :=
      [ { service := "Amazon EC2", cost := 2, percentage := 200 / 3 },
        { service := "Amazon S3", cost := 1, percentage := 100 / 3 } ] }

/-- Witness for `c5_load_sequence`: a failed current fetch next to a
successful one with a failed previous fetch. -/
theorem c5_load_sequence_witness :
    (App.new.load_data (Except.error "no credentials") (Except.ok sampleData)
        (Except.ok [sampleData])).loading = false ∧
    App.new.load_data (Except.error "no credentials") (Except.ok sampleData)
        (Except.ok [sampleData])
      = { App.new with
          error := some ("Failed to load current month: " ++ "no credentials"),
          loading := false } ∧
    (App.new.load_data (Except.ok sampleData) (Except.error "throttled")
        (Except.ok [sampleData])).current_month = some sampleData ∧
    (App.new.load_data (Except.ok sampleData) (Except.error "throttled")
        (Except.ok [sampleData])).error = none ∧
    (App.new.load_data (Except.ok sampleData) (Except.error "throttled")
        (Except.ok [sampleData])).previous_month = none ∧
    (App.new.load_data (Except.ok sampleData) (Except.error "throttled")
        (Except.ok [sampleData])).monthly_trend = [sampleData] :=
  ⟨(c5_load_sequence (Except.error "no credentials") (Except.ok sampleData)
      (Except.ok [sampleData])).1,
   (c5_load_sequence (Except.error "no credentials") (Except.ok sampleData)
      (Except.ok [sampleData])).2.1 "no credentials" rfl,
   ((c5_load_sequence (Except.ok sampleData) (Except.error "throttled")
      (Except.ok [sampleData])).2.2 sampleData rfl).1,
   ((c5_load_sequence (Except.ok sampleData) (Except.error "throttled")
      (Except.ok [sampleData])).2.2 sampleData rfl).2.1,
   ((c5_load_sequence (Except.ok sampleData) (Except.error "throttled")
      (Except.ok [sampleData])).2.2 sampleData rfl).2.2.1,
   ((c5_load_sequence (Except.ok sampleData) (Except.error "throttled")
      (Except.ok [sampleData])).2.2 sampleData rfl).2.2.2⟩

/-- The four presentation sub-states a month tab can draw (src/ui/app.rs):
the loading placeholder (`render_loading`), the error panel (`render_error`,
carrying the message), the no-data placeholder (`render_no_data`), and the
summary-plus-ranked-table view (`render_cost_breakdown`, carrying the data it
is drawn from). -/
inductive View where
  | loadingView
  | errorPanel (msg : String)
  | noData
  | breakdown (d : CostData)
deriving DecidableEq, Repr

/-- Embeds the dispatch of `App::render_current_month` (src/ui/app.rs lines
283-299): loading first, then error, then data/no-data. -/
def App.render_current_month (app : App) : View :=
  if app.loading then View.loadingView
  else
    match app.error with
    | some e => View.errorPanel e
    | none =>
        match app.current_month with
        | some d => View.breakdown d
        | none => View.noData

/-- Embeds the dispatch of `App::render_previous_month` (src/ui/app.rs lines
301-307): data if present, else no-data — with no loading or error check. -/
def App.render_previous_month (app : App) : View :=
  match app.previous_month with
  | some d => View.breakdown d
  | none => View.noData

/-- C3 counterexample: on the fresh state (`loading = true`, no previous
summary) the PreviousMonth tab renders the no-data placeholder, not the
loading placeholder the claim requires while `loading` is true. -/
theorem c3_previous_month_ignores_loading :
    App.new.loading = true ∧
    App.new.render_previous_month = View.noData ∧
    App.new.render_previous_month ≠ View.loadingView := by
  refine ⟨rfl, rfl, ?_⟩
  decide

/-- C3 amended: the CurrentMonth tab dispatches loading → error panel →
no-data → breakdown in that order; the PreviousMonth tab checks neither
`loading` nor `error` — it renders the breakdown when the previous summary is
present and the no-data placeholder otherwise, even while `loading` is true. -/
theorem c3_render_dispatch (app : App) :
    (app.loading = true → app.render_current_month = View.loadingView) ∧
    (∀ e, app.loading = false → app.error = some e →
      app.render_current_month = View.errorPanel e) ∧
    (∀ d, app.loading = false → app.error = none → app.current_month = some d →
      app.render_current_month = View.breakdown d) ∧
    (app.loading = false → app.error = none → app.current_month = none →
      app.render_current_month = View.noData) ∧
    (∀ d, app.previous_month = some d → app.render_previous_month = View.breakdown d) ∧
    (app.previous_month = none → app.render_previous_month = View.noData) := by
  refine ⟨fun h => ?_, fun e h1 h2 => ?_, fun d h1 h2 h3 => ?_, fun h1 h2 h3 => ?_,
      fun d h => ?_, fun h => ?_⟩ <;>
    simp_all [App.render_current_month, App.render_previous_month]

/-- Witness for `c3_render_dispatch` at concrete states exercising each
branch. -/
theorem c3_render_dispatch_witness :
    App.new.render_current_month = View.loadingView ∧
    { App.new with loading := false, error := some "boom" }.render_current_month = View.errorPanel "boom" ∧
    { App.new with loading := false, current_month := some sampleData }.render_current_month = View.breakdown sampleData ∧
    { App.new with loading := false }.render_current_month = View.noData ∧
    { App.new with
        previous_month := some sampleData }.render_previous_month = View.breakdown sampleData ∧
    App.new.render_previous_month = View.noData :=
  ⟨(c3_render_dispatch App.new).1 rfl,
   (c3_render_dispatch { App.new with loading := false, error := some "boom" }).2.1
      "boom" rfl rfl,
   (c3_render_dispatch
      { App.new with loading := false, current_month := some sampleData }).2.2.1
      sampleData rfl rfl rfl,
   (c3_render_dispatch { App.new with loading := false }).2.2.2.1 rfl rfl rfl,
   (c3_render_dispatch { App.new with
      previous_month := some sampleData }).2.2.2.2.1 sampleData rfl,
   (c3_render_dispatch App.new).2.2.2.2.2 rfl⟩

/-- The two modes `App::run` (src/ui/app.rs lines 178-198) puts the terminal
in before the loop (`enable_raw_mode`, `EnterAlternateScreen`) and is meant to
undo after it (`disable_raw_mode`, `LeaveAlternateScreen`). -/
structure TermState where
  rawMode : Bool
  altScreen : Bool
deriving DecidableEq, Repr

/-- What one iteration of the `while !self.should_quit` loop of `App::run`
does, from the loop's point of view: the `terminal.draw(...)?` call fails, the
`self.handle_input()?` call fails, the input handler sets `should_quit` (so
the loop condition ends the loop), or neither happens and the loop repeats. -/
inductive LoopStep where
  | drawErr
  | inputErr
  | setQuit
  | keepGoing
deriving DecidableEq, Repr

/-- Embeds the body of `App::run` after terminal setup (src/ui/app.rs lines
186-197), driven by a script of iteration behaviours.  `?` on a failing call
returns the error immediately with the terminal modes as they are at that
point; only after the loop exits normally are raw mode disabled and the
alternate screen left.  `none` in the first component means the script ended
with the loop still running. -/
def runLoop : List LoopStep → TermState → Option (Except Unit Unit) × TermState
  | [], st => (none, st)
  | step :: rest, st =>
      match step with
      | .drawErr => (some (Except.error ()), st)
      | .inputErr => (some (Except.error ()), st)
      | .setQuit => (some (Except.ok ()), { st with rawMode := false, altScreen := false })
      | .keepGoing => runLoop rest st

/-- Embeds `App::run` (src/ui/app.rs lines 178-198): acquire raw mode and the
alternate screen, then run the loop. -/
def runModel (script : List LoopStep) : Option (Except Unit Unit) × TermState :=
  runLoop script { rawMode := true, altScreen := true }

/-- C1: the claim fails on the code.  On the normal quit path the terminal is
restored, but when a render (`terminal.draw`) or input-handling step returns
an error, `?` propagates it out of `run` before the restore code runs: the
terminal is left in raw mode on the alternate screen.  Evaluated here on the
shortest failing scripts, next to the restoring quit path. -/
theorem c1_terminal_not_restored_on_error :
    runModel [LoopStep.setQuit]
        = (some (Except.ok ()), { rawMode := false, altScreen := false }) ∧
    runModel [LoopStep.drawErr]
        = (some (Except.error ()), { rawMode := true, altScreen := true }) ∧
    runModel [LoopStep.keepGoing, LoopStep.inputErr]
        = (some (Except.error ()), { rawMode := true, altScreen := true }) ∧
    ({ rawMode := true, altScreen := true } : TermState)
        ≠ { rawMode := false, altScreen := false } := by
  refine ⟨rfl, rfl, rfl, ?_⟩
  decide

/-- One entry of a `ResultByTime.groups` list as `get_costs_for_period`
consumes it (src/aws/cost_explorer.rs): the dimension keys, the parsed
`UnblendedCost` amount when that metric is present, and its unit.  JSON
transport and `amount.parse().unwrap_or(0.0)` happen upstream of what the
claims are about, so the amount arrives here already as a rational. -/
structure RawGroup where
  keys : List String
  amount : Option ℚ
  unit : Option String
deriving DecidableEq, Repr

/-- The groups the accumulation loop of `get_costs_for_period`
(src/aws/cost_explorer.rs lines 330-350) keeps: those with an
`UnblendedCost` metric whose amount exceeds `0.001`, reduced to
`(service name, cost, unit)`. -/
def keptEntries (groups : List RawGroup) : List (String × ℚ × Option String) :=
  groups.filterMap (fun g =>
    match g.amount with
    | some c => if 1 / 1000 < c then some (g.keys.headD "", c, g.unit) else none
    | none => none)

/-- The comparator of src/aws/cost_explorer.rs line 360
(`b.cost.partial_cmp(&a.cost)`): descending by cost. -/
def costDesc (a b : ServiceCost) : Prop := b.cost ≤ a.cost

instance : DecidableRel costDesc := fun a b => inferInstanceAs (Decidable (b.cost ≤ a.cost))

instance : IsTotal ServiceCost costDesc := ⟨fun a b => le_total b.cost a.cost⟩

instance : IsTrans ServiceCost costDesc := ⟨fun _ _ _ h1 h2 => le_trans h2 h1⟩

/-- Embeds `CostExplorerClient::get_costs_for_period` after the network call
(src/aws/cost_explorer.rs lines 323-368): accumulate total and currency over
the kept groups, compute each percentage from the final total (or `0` when
the total is `0`), and stably sort the breakdown descending by cost. -/
def get_costs_for_period (period_name : String) (groups : List RawGroup) : CostData :=
  let kept := keptEntries groups
  let total := (kept.map (fun e => e.2.1)).sum
  let currency := kept.foldl (fun cur e => match e.2.2 with | some u => u | none => cur) "USD"
  let scs := kept.map (fun e =>
    { service := e.1, cost := e.2.1,
      percentage := if 0 < total then e.2.1 / total * 100 else 0 : ServiceCost })
  { period := period_name, total_cost := total, currency := currency,
    breakdown := List.insertionSort costDesc scs }

/-- Summing `c / t * 100` over a list is `(sum) / t * 100`. -/
theorem sum_map_div_mul (l : List ℚ) (t : ℚ) :
    (l.map (fun c => c / t * 100)).sum = l.sum / t * 100 := by
  induction l with
  | nil => simp
  | cons c l ih =>
      simp only [List.map_cons, List.sum_cons, ih]
      ring

/-- C8: in every summary `get_costs_for_period` constructs, if the total is
positive then each breakdown entry's percentage is `cost / total * 100` and
the percentages sum to `100` (exactly, in this rational model, hence within
any epsilon); if the total is `0`, every percentage is `0`. -/
theorem c8_percentages (period_name : String) (groups : List RawGroup) :
    (0 < (get_costs_for_period period_name groups).total_cost →
      (∀ s ∈ (get_costs_for_period period_name groups).breakdown,
        s.percentage = s.cost / (get_costs_for_period period_name groups).total_cost * 100) ∧
      ((get_costs_for_period period_name groups).breakdown.map
          (fun s => s.percentage)).sum = 100) ∧
    ((get_costs_for_period period_name groups).total_cost = 0 →
      ∀ s ∈ (get_costs_for_period period_name groups).breakdown, s.percentage = 0) := by
  set kept := keptEntries groups with hkept
  set total := (kept.map (fun e => e.2.1)).sum with htotal
  have hbd : (get_costs_for_period period_name groups).breakdown
      = List.insertionSort costDesc (kept.map (fun e =>
          { service := e.1, cost := e.2.1,
            percentage := if 0 < total then e.2.1 / total * 100 else 0 : ServiceCost })) := rfl
  have htc : (get_costs_for_period period_name groups).total_cost = total := rfl
  have hperm := List.perm_insertionSort costDesc (kept.map (fun e =>
      { service := e.1, cost := e.2.1,
        percentage := if 0 < total then e.2.1 / total * 100 else 0 : ServiceCost }))
  constructor
  · intro hpos
    rw [htc] at hpos
    constructor
    · intro s hs
      rw [hbd] at hs
      have hs' := hperm.mem_iff.mp hs
      obtain ⟨e, _, rfl⟩ := List.mem_map.mp hs'
      simp only [htc, if_pos hpos]
    · rw [hbd, (hperm.map (fun s => s.percentage)).sum_eq, List.map_map]
      have hcomp : ((fun s : ServiceCost => s.percentage) ∘ (fun e : String × ℚ × Option String =>
          { service := e.1, cost := e.2.1,
            percentage := if 0 < total then e.2.1 / total * 100 else 0 : ServiceCost }))
          = fun e : String × ℚ × Option String => e.2.1 / total * 100 := by
        funext e
        simp [if_pos hpos]
      rw [hcomp]
      have hmm : (kept.map (fun e : String × ℚ × Option String => e.2.1 / total * 100))
          = (kept.map (fun e => e.2.1)).map (fun c => c / total * 100) := by
        rw [List.map_map]
        rfl
      rw [hmm, sum_map_div_mul, ← htotal, div_self (ne_of_gt hpos), one_mul]
  · intro hzero s hs
    rw [htc] at hzero
    rw [hbd] at hs
    have hs' := hperm.mem_iff.mp hs
    obtain ⟨e, _, rfl⟩ := List.mem_map.mp hs'
    simp only [hzero]
    rw [if_neg]
    simp

/-- Witness for `c8_percentages`: one concrete positive-total response and one
all-filtered (zero-total) response. -/
theorem c8_percentages_witness :
    (0 < (get_costs_for_period "October 2025"
        [ { keys := ["Amazon EC2"], amount := some 2, unit := some "USD" },
          { keys := ["Amazon S3"], amount := some 1, unit := some "USD" } ]).total_cost ∧
      ∀ s ∈ (get_costs_for_period "October 2025"
        [ { keys := ["Amazon EC2"], amount := some 2, unit := some "USD" },
          { keys := ["Amazon S3"], amount := some 1, unit := some "USD" } ]).breakdown,
        s.percentage = s.cost / (get_costs_for_period "October 2025"
        [ { keys := ["Amazon EC2"], amount := some 2, unit := some "USD" },
          { keys := ["Amazon S3"], amount := some 1, unit := some "USD" } ]).total_cost * 100) ∧
    ((get_costs_for_period "October 2025"
        [ { keys := ["Amazon EC2"], amount := some 2, unit := some "USD" },
          { keys := ["Amazon S3"], amount := some 1, unit := some "USD" } ]).breakdown.map
        (fun s => s.percentage)).sum = 100 ∧
    ((get_costs_for_period "October 2025"
        [ { keys := ["AWS Lambda"], amount := some (1 / 2000), unit := some "USD" } ]).total_cost
        = 0 ∧
      ∀ s ∈ (get_costs_for_period "October 2025"
        [ { keys := ["AWS Lambda"], amount := some (1 / 2000), unit := some "USD" } ]).breakdown,
        s.percentage = 0) :=
  ⟨⟨by norm_num [get_costs_for_period, keptEntries, List.filterMap_cons],
    ((c8_percentages "October 2025"
        [ { keys := ["Amazon EC2"], amount := some 2, unit := some "USD" },
          { keys := ["Amazon S3"], amount := some 1, unit := some "USD" } ]).1
      (by norm_num [get_costs_for_period, keptEntries, List.filterMap_cons])).1⟩,
   ((c8_percentages "October 2025"
        [ { keys := ["Amazon EC2"], amount := some 2, unit := some "USD" },
          { keys := ["Amazon S3"], amount := some 1, unit := some "USD" } ]).1
      (by norm_num [get_costs_for_period, keptEntries, List.filterMap_cons])).2,
   ⟨by norm_num [get_costs_for_period, keptEntries, List.filterMap_cons],
    (c8_percentages "October 2025"
        [ { keys := ["AWS Lambda"], amount := some (1 / 2000), unit := some "USD" } ]).2
      (by norm_num [get_costs_for_period, keptEntries, List.filterMap_cons])⟩⟩

/-- Membership in the hash-map key set is occurrence in some month. -/
theorem mem_collectServices {trend : List CostData} {s : String} :
    s ∈ collectServices trend ↔ appearsIn trend s = true := by
  simp [collectServices, appearsIn, List.mem_dedup, List.mem_flatten]

/-- Every entry the embedding pairs with a name carries that name's summed
cost. -/
theorem entries_snd {trend : List CostData} {enum : List String} {p : String × ℚ}
    (hp : p ∈ enum.map (fun n => (n, serviceSum trend n))) : p.2 = serviceSum trend p.1 := by
  obtain ⟨n, _, rfl⟩ := List.mem_map.mp hp
  rfl

/-- C9: `get_top_services_across_months` on an empty trend returns the empty
list; in general it returns at most 8 names, each occurring in the breakdown
of at least one month of the trend, ordered by descending cost summed across
all months (a service absent from a month contributing 0 there). -/
theorem c9_top_services (app : App) (enum : List String)
    (h : validEnum app.monthly_trend enum) :
    (app.monthly_trend = [] → app.get_top_services_across_months enum = []) ∧
    (app.get_top_services_across_months enum).length ≤ 8 ∧
    (∀ s ∈ app.get_top_services_across_months enum,
      appearsIn app.monthly_trend s = true) ∧
    (app.get_top_services_across_months enum).Pairwise
      (fun a b => serviceSum app.monthly_trend b ≤ serviceSum app.monthly_trend a) := by
  refine ⟨?_, ?_, ?_, ?_⟩
  · intro hnil
    rw [hnil] at h
    have : enum = [] := h.eq_nil
    rw [App.get_top_services_across_months, hnil, this]
    rfl
  · rw [App.get_top_services_across_months]
    simp only [List.length_map, List.length_take]
    exact min_le_left _ _
  · intro s hs
    rw [App.get_top_services_across_months] at hs
    obtain ⟨p, hp, rfl⟩ := List.mem_map.mp hs
    have hp1 : p ∈ List.insertionSort sumDesc
        (enum.map (fun n => (n, serviceSum app.monthly_trend n))) :=
      List.mem_of_mem_take hp
    have hp2 : p ∈ enum.map (fun n => (n, serviceSum app.monthly_trend n)) :=
      (List.perm_insertionSort _ _).mem_iff.mp hp1
    obtain ⟨n, hn, rfl⟩ := List.mem_map.mp hp2
    exact mem_collectServices.mp (h.mem_iff.mp hn)
  · rw [App.get_top_services_across_months]
    rw [List.pairwise_map]
    have hsorted : List.Sorted sumDesc (List.insertionSort sumDesc
        (enum.map (fun n => (n, serviceSum app.monthly_trend n)))) :=
      List.sorted_insertionSort sumDesc _
    have htake := hsorted.sublist (List.take_sublist 8 _)
    refine htake.imp_of_mem ?_
    intro p q hp hq hr
    have hp' : p.2 = serviceSum app.monthly_trend p.1 :=
      entries_snd ((List.perm_insertionSort _ _).mem_iff.mp (List.mem_of_mem_take hp))
    have hq' : q.2 = serviceSum app.monthly_trend q.1 :=
      entries_snd ((List.perm_insertionSort _ _).mem_iff.mp (List.mem_of_mem_take hq))
    rw [← hp', ← hq']
    exact hr

/-- A two-month trend with distinct summed costs, used by witnesses. -/
def trendMonthA : CostData :=
  { period := "August 2025", total_cost := 4, currency := "USD",
    breakdown :=
      [ { service := "Amazon EC2", cost := 3, percentage := 75 },
        { service := "Amazon S3", cost := 1, percentage := 25 } ] }

/-- Second month of the witness trend; Amazon S3 is absent here, so it
contributes 0 for this month. -/
def trendMonthB : CostData :=
  { period := "September 2025", total_cost := 2, currency := "USD",
    breakdown := [ { service := "Amazon EC2", cost := 2, percentage := 100 } ] }

/-- A dashboard state holding the two-month witness trend. -/
def appTrend : App :=
  { App.new with loading := false, monthly_trend := [trendMonthA, trendMonthB] }

/-- Witness for `c9_top_services`: the two-month trend under one concrete hash
enumeration order, plus the empty trend. -/
theorem c9_top_services_witness :
    (appTrend.get_top_services_across_months ["Amazon S3", "Amazon EC2"]).length ≤ 8 ∧
    (∀ s ∈ appTrend.get_top_services_across_months ["Amazon S3", "Amazon EC2"],
      appearsIn appTrend.monthly_trend s = true) ∧
    (appTrend.get_top_services_across_months ["Amazon S3", "Amazon EC2"]).Pairwise
      (fun a b => serviceSum appTrend.monthly_trend b ≤ serviceSum appTrend.monthly_trend a) ∧
    App.new.get_top_services_across_months [] = [] :=
  ⟨(c9_top_services appTrend ["Amazon S3", "Amazon EC2"] (by decide)).2.1,
   (c9_top_services appTrend ["Amazon S3", "Amazon EC2"] (by decide)).2.2.1,
   (c9_top_services appTrend ["Amazon S3", "Amazon EC2"] (by decide)).2.2.2,
   (c9_top_services App.new [] (by decide)).1 rfl⟩

/-- The strict version of the sorting comparator. -/
def sumLt (a b : String × ℚ) : Prop := b.2 < a.2

instance : IsAntisymm (String × ℚ) sumLt :=
  ⟨fun _ _ h1 h2 => (lt_asymm h1 h2).elim⟩

/-- A one-month trend in which two services have equal cost, so their summed
costs tie. -/
def tieMonth : CostData :=
  { period := "September 2025", total_cost := 2, currency := "USD",
    breakdown :=
      [ { service := "Amazon EC2", cost := 1, percentage := 50 },
        { service := "Amazon S3", cost := 1, percentage := 50 } ] }

/-- A dashboard state holding the tied trend. -/
def appTie : App :=
  { App.new with loading := false, monthly_trend := [tieMonth] }

/-- C4 counterexample: with two services tied on summed cost, two legitimate
hash-map enumeration orders of the same key set make
`get_top_services_across_months` return the tied names in different orders,
so the result depends on hash-map iteration order. -/
theorem c4_hash_order_dependence :
    validEnum appTie.monthly_trend ["Amazon EC2", "Amazon S3"] ∧
    validEnum appTie.monthly_trend ["Amazon S3", "Amazon EC2"] ∧
    appTie.get_top_services_across_months ["Amazon EC2", "Amazon S3"]
      ≠ appTie.get_top_services_across_months ["Amazon S3", "Amazon EC2"] := by
  refine ⟨by decide, by decide, ?_⟩
  have h1 : appTie.get_top_services_across_months ["Amazon EC2", "Amazon S3"]
      = ["Amazon EC2", "Amazon S3"] := by
    simp [App.get_top_services_across_months, serviceSum, appTie, tieMonth, App.new,
      List.filter_cons, List.insertionSort, List.orderedInsert, sumDesc]
  have h2 : appTie.get_top_services_across_months ["Amazon S3", "Amazon EC2"]
      = ["Amazon S3", "Amazon EC2"] := by
    simp [App.get_top_services_across_months, serviceSum, appTie, tieMonth, App.new,
      List.filter_cons, List.insertionSort, List.orderedInsert, sumDesc]
  rw [h1, h2]
  decide

/-- C4 amended: when the summed costs of the trend's services are pairwise
distinct, `get_top_services_across_months` is deterministic — any two
hash-map enumeration orders of the key set give the same output list.  (With
ties, the previous counterexample shows the tied names' relative order
follows the enumeration order.) -/
theorem c4_deterministic_when_sums_distinct (app : App) (enum1 enum2 : List String)
    (h1 : validEnum app.monthly_trend enum1) (h2 : validEnum app.monthly_trend enum2)
    (hd : (collectServices app.monthly_trend).Pairwise
      (fun a b => serviceSum app.monthly_trend a ≠ serviceSum app.monthly_trend b)) :
    app.get_top_services_across_months enum1 = app.get_top_services_across_months enum2 := by
  have hperm : enum1.Perm enum2 := h1.trans h2.symm
  have hePerm : (enum1.map (fun n => (n, serviceSum app.monthly_trend n))).Perm
      (enum2.map (fun n => (n, serviceSum app.monthly_trend n))) := hperm.map _
  have hsortPerm : (List.insertionSort sumDesc
        (enum1.map (fun n => (n, serviceSum app.monthly_trend n)))).Perm
      (List.insertionSort sumDesc
        (enum2.map (fun n => (n, serviceSum app.monthly_trend n)))) :=
    ((List.perm_insertionSort _ _).trans hePerm).trans (List.perm_insertionSort _ _).symm
  have hstrict : ∀ enum : List String, validEnum app.monthly_trend enum →
      List.Sorted sumLt (List.insertionSort sumDesc
        (enum.map (fun n => (n, serviceSum app.monthly_trend n)))) := by
    intro enum henum
    have hsorted : List.Sorted sumDesc (List.insertionSort sumDesc
        (enum.map (fun n => (n, serviceSum app.monthly_trend n)))) :=
      List.sorted_insertionSort sumDesc _
    have hpneq : enum.Pairwise
        (fun a b => serviceSum app.monthly_trend a ≠ serviceSum app.monthly_trend b) :=
      (henum.pairwise_iff (fun {_ _} h => Ne.symm h)).mpr hd
    have hpneq2 : (enum.map (fun n => (n, serviceSum app.monthly_trend n))).Pairwise
        (fun p q : String × ℚ => p.2 ≠ q.2) := by
      rw [List.pairwise_map]
      exact hpneq
    have hpneq3 : (List.insertionSort sumDesc
        (enum.map (fun n => (n, serviceSum app.monthly_trend n)))).Pairwise
        (fun p q : String × ℚ => p.2 ≠ q.2) :=
      ((List.perm_insertionSort _ _).pairwise_iff (fun {_ _} h => Ne.symm h)).mpr hpneq2
    have := hsorted.and hpneq3
    refine this.imp ?_
    intro p q hpq
    exact lt_of_le_of_ne hpq.1 (fun he => hpq.2 he.symm)
  have heq : List.insertionSort sumDesc
        (enum1.map (fun n => (n, serviceSum app.monthly_trend n)))
      = List.insertionSort sumDesc
        (enum2.map (fun n => (n, serviceSum app.monthly_trend n))) :=
    List.eq_of_perm_of_sorted hsortPerm (hstrict enum1 h1) (hstrict enum2 h2)
  rw [App.get_top_services_across_months, App.get_top_services_across_months, heq]

/-- Witness for `c4_deterministic_when_sums_distinct`: the two-month trend
with distinct sums under both enumeration orders. -/
theorem c4_deterministic_witness :
    appTrend.get_top_services_across_months ["Amazon S3", "Amazon EC2"]
      = appTrend.get_top_services_across_months ["Amazon EC2", "Amazon S3"] :=
  c4_deterministic_when_sums_distinct appTrend ["Amazon S3", "Amazon EC2"]
    ["Amazon EC2", "Amazon S3"] (by decide) (by decide) (by
      have hc : collectServices appTrend.monthly_trend = ["Amazon S3", "Amazon EC2"] := by
        decide
      rw [hc]
      refine List.pairwise_cons.mpr ⟨?_, List.pairwise_singleton _ _⟩
      intro y hy
      rw [List.mem_singleton] at hy
      subst hy
      simp [serviceSum, appTrend, trendMonthA, trendMonthB, App.new, List.filter_cons]
      norm_num)

/-- UTF-8 encoding of one code point, by value range. -/
def utf8Bytes (c : Nat) : List Nat :=
  if c < 128 then [c]
  else if c < 2048 then [192 + c / 64, 128 + c % 64]
  else if c < 65536 then [224 + c / 4096, 128 + (c / 64) % 64, 128 + c % 64]
  else [240 + c / 262144, 128 + (c / 4096) % 64, 128 + (c / 64) % 64, 128 + c % 64]

/-- The UTF-8 byte sequence of a string, as Rust's `str` stores it.  Rust's
`str::len` and byte-index slicing work on this representation, so the
truncation function is embedded at this level. -/
def strUtf8 (s : String) : List Nat :=
  ((s.data.map Char.toNat).map utf8Bytes).flatten

/-- A UTF-8 continuation byte (`0b10xxxxxx`); Rust's `is_char_boundary` is
false exactly at such bytes (at indices that are neither 0 nor the length). -/
def contByte (b : Nat) : Bool := 128 ≤ b && b < 192

/-- Whether `p` is a leading byte sequence of `s`. -/
def leadMatch : List Nat → List Nat → Bool
  | [], _ => true
  | _ :: _, [] => false
  | a :: as, b :: bs => a == b && leadMatch as bs

/-- Rust's `str::trim_start_matches(p)`: remove every successive leading copy
of `p`.  The byte length of the remaining string bounds the number of
removals, so it serves as structural fuel. -/
def stripRepeat (p : List Nat) : Nat → List Nat → List Nat
  | 0, s => s
  | fuel + 1, s =>
      if p.isEmpty then s
      else if leadMatch p s then stripRepeat p fuel (s.drop p.length) else s

/-- `trim_start_matches` with the fuel instantiated. -/
def stripAll (p s : List Nat) : List Nat := stripRepeat p s.length s

/-- The prefix-stripping chain of `truncate_service_name` (src/ui/app.rs lines
743-746): `trim_start_matches("Amazon ")`, then `("AWS ")`, then
`("Amazon")`. -/
def stripName (name : List Nat) : List Nat :=
  stripAll (strUtf8 "Amazon") (stripAll (strUtf8 "AWS ") (stripAll (strUtf8 "Amazon ") name))

/-- UTF-8 bytes of the ellipsis `…` (U+2026) appended by the truncation
branch. -/
def ellipsisBytes : List Nat := [226, 128, 166]

/-- Rust's `str::is_char_boundary` at index `k` (for `k` at most the length):
true at 0 and at the end, false exactly on a continuation byte. -/
def isCharBoundary (n : List Nat) (k : Nat) : Bool :=
  k == 0 ||
    match n.get? k with
    | some b => !contByte b
    | none => true

/-- Embeds `truncate_service_name` (src/ui/app.rs lines 741-753) at the byte
level.  `&name[..max_len - 1]` panics when `max_len - 1` is not a character
boundary; the panic is modelled as `none`. -/
def truncate_service_name (name : List Nat) (max_len : Nat) : Option (List Nat) :=
  let n := stripName name
  if max_len < n.length then
    if isCharBoundary n (max_len - 1) then some (n.take (max_len - 1) ++ ellipsisBytes)
    else none
  else some n

/-- The legend call site `truncate_service_name(service, 25)` in
`App::render_trend` (src/ui/app.rs line 401). -/
def trendLegendName (service : List Nat) : Option (List Nat) :=
  truncate_service_name service 25

/-- The detail-table call site `truncate_service_name(&s.service, 40)` in
`App::render_cost_breakdown` (src/ui/app.rs line 568). -/
def breakdownTableName (service : List Nat) : Option (List Nat) :=
  truncate_service_name service 40

/-- C2 counterexample: the detail table truncates to 40 characters but the
trend legend to 25, so a real service name — Amazon Elastic Container Service
for Kubernetes, whose stripped form is 40 bytes long — is displayed in full in
the detail table but cut to 24 characters plus an ellipsis in the legend:
the two tabs show different strings for the same service. -/
theorem c2_displayed_names_differ :
    breakdownTableName (strUtf8 "Amazon Elastic Container Service for Kubernetes")
      = some (strUtf8 "Elastic Container Service for Kubernetes") ∧
    trendLegendName (strUtf8 "Amazon Elastic Container Service for Kubernetes")
      = some (strUtf8 "Elastic Container Servic" ++ ellipsisBytes) ∧
    breakdownTableName (strUtf8 "Amazon Elastic Container Service for Kubernetes")
      ≠ trendLegendName (strUtf8 "Amazon Elastic Container Service for Kubernetes") := by
  refine ⟨?_, ?_, ?_⟩ <;> decide

/-- C2 amended: both tabs pass the service name through the same truncation
function (strip vendor prefixes, then cut with an ellipsis), but with
different maximum lengths — 40 in the detail table, 25 in the trend legend —
so the displayed names agree exactly when the stripped name fits the shorter
limit. -/
theorem c2_truncation_consistent_when_short (name : List Nat)
    (h : (stripName name).length ≤ 25) :
    breakdownTableName name = trendLegendName name := by
  simp only [breakdownTableName, trendLegendName, truncate_service_name]
  rw [if_neg (by omega), if_neg (by omega)]

/-- Witness for `c2_truncation_consistent_when_short`: a short service name
displayed identically in both tabs. -/
theorem c2_truncation_consistent_witness :
    (stripName (strUtf8 "Amazon S3")).length ≤ 25 ∧
    breakdownTableName (strUtf8 "Amazon S3") = trendLegendName (strUtf8 "Amazon S3") :=
  ⟨by decide, c2_truncation_consistent_when_short (strUtf8 "Amazon S3") (by decide)⟩

/-- Bytes surviving `trim_start_matches` are bytes of the input. -/
theorem mem_stripRepeat {p : List Nat} :
    ∀ {fuel : Nat} {s : List Nat} {b : Nat}, b ∈ stripRepeat p fuel s → b ∈ s := by
  intro fuel
  induction fuel with
  | zero => intro s b h; exact h
  | succ n ih =>
      intro s b h
      rw [stripRepeat] at h
      by_cases hp : p.isEmpty
      · rwa [if_pos hp] at h
      · rw [if_neg hp] at h
        by_cases hm : leadMatch p s
        · rw [if_pos hm] at h
          exact List.mem_of_mem_drop (ih h)
        · rwa [if_neg hm] at h

/-- Bytes of the stripped name are bytes of the original name. -/
theorem mem_stripName {name : List Nat} {b : Nat} (h : b ∈ stripName name) : b ∈ name :=
  mem_stripRepeat (mem_stripRepeat (mem_stripRepeat h))

/-- Number of characters a byte sequence displays as: one per byte that is not
a UTF-8 continuation byte. -/
def charCount (l : List Nat) : Nat := (l.filter (fun b => !contByte b)).length

/-- C10 counterexample: the claim fails on the code.  On the valid UTF-8
service name of 23 `a`s, an `é` and two `x`s (27 bytes, stripped form
unchanged), the legend's truncation to 25 slices at byte index 24, which is
the continuation byte of `é` — not a character boundary — so
`&name[..max_len - 1]` panics instead of returning a display string. -/
theorem c10_truncation_panics :
    truncate_service_name (strUtf8 "aaaaaaaaaaaaaaaaaaaaaaaéxx") 25 = none := by
  decide

/-- C10 amended: for every ASCII service name and both maximum lengths the
views use (25 for the trend legend, 40 for the detail table), the truncation
function returns a display string — the byte slice falls on a character
boundary — and that string is at most `max_len` characters long.  (On
non-ASCII names the slice can split a character, as the counterexample
shows.) -/
theorem c10_total_on_ascii (name : List Nat) (max_len : Nat)
    (hascii : ∀ b ∈ name, b < 128) (hml : max_len = 25 ∨ max_len = 40) :
    ∃ out, truncate_service_name name max_len = some out ∧ charCount out ≤ max_len := by
  have hsub : ∀ b ∈ stripName name, b < 128 := fun b hb => hascii b (mem_stripName hb)
  simp only [truncate_service_name]
  by_cases hlen : max_len < (stripName name).length
  · rw [if_pos hlen]
    have hk : max_len - 1 < (stripName name).length := by omega
    have hb : (stripName name).get? (max_len - 1)
        = some ((stripName name).get ⟨max_len - 1, hk⟩) := List.get?_eq_get hk
    have hbas : (stripName name).get ⟨max_len - 1, hk⟩ < 128 :=
      hsub _ (List.get?_mem hb)
    have hcb : contByte ((stripName name).get ⟨max_len - 1, hk⟩) = false := by
      unfold contByte
      simp only [Bool.and_eq_false_iff, decide_eq_false_iff_not, not_le]
      left
      omega
    have hbound : isCharBoundary (stripName name) (max_len - 1) = true := by
      unfold isCharBoundary
      rw [hb]
      simp
      exact Or.inr hcb
    rw [if_pos hbound]
    refine ⟨_, rfl, ?_⟩
    unfold charCount
    rw [List.filter_append]
    have htake : ((stripName name).take (max_len - 1)).filter (fun b => !contByte b)
        = (stripName name).take (max_len - 1) := by
      rw [List.filter_eq_self]
      intro a ha
      have ham : a < 128 := hsub a (List.mem_of_mem_take ha)
      unfold contByte
      simp only [Bool.not_eq_true', Bool.and_eq_false_iff, decide_eq_false_iff_not, not_le]
      left
      omega
    have hell : (ellipsisBytes.filter (fun b => !contByte b)).length = 1 := by decide
    rw [htake, List.length_append, List.length_take, hell,
      Nat.min_eq_left (by omega : max_len - 1 ≤ (stripName name).length)]
    omega
  · rw [if_neg hlen]
    refine ⟨_, rfl, ?_⟩
    calc ((stripName name).filter (fun b => !contByte b)).length
        ≤ (stripName name).length := List.length_filter_le _ _
      _ ≤ max_len := by omega

/-- Witness for `c10_total_on_ascii`: the long ASCII name at the legend's
maximum length. -/
theorem c10_total_on_ascii_witness :
    (∀ b ∈ strUtf8 "Amazon Elastic Container Service for Kubernetes", b < 128) ∧
    ∃ out, truncate_service_name
        (strUtf8 "Amazon Elastic Container Service for Kubernetes") 25 = some out ∧
      charCount out ≤ 25 :=
  ⟨by decide,
   c10_total_on_ascii (strUtf8 "Amazon Elastic Container Service for Kubernetes") 25
     (by decide) (Or.inl rfl)⟩

end AwsCostsTui
